import Mathlib

/-!
A verification development for the nargo download tracker: a two-script
batch utility that fetches GitHub release download counts
(scripts/nargo_download_tracker.py) and renders charts from the recorded
JSON history (scripts/visualize_downloads.py).

The Python code is shallowly embedded: JSON objects become association
lists (insertion-ordered, as Python dicts are), file contents become
explicit values threaded through the functions, and the regular
expression of parse_semver is replaced by an equivalent deterministic
parser (every quantifier in the pattern is forced, since the character
classes involved are disjoint from the delimiters that follow them).
Digit and letter classes are modelled as ASCII, matching the inputs the
scripts deal in.
-/

/-- An asset attached to a GitHub release, with the fields the tracker reads. -/
structure Asset where
  name : String
  download_count : Nat
  size : Nat
  browser_download_url : String
deriving DecidableEq

/-- A GitHub release record, with the fields the tracker reads. -/
structure Release where
  tag_name : String
  assets : List Asset
deriving DecidableEq

/-- A flattened per-asset statistics row as built by extract_download_stats;
daily_change is absent (none) until calculate_daily_changes fills it. -/
structure StatRow where
  timestamp : String
  release_tag : String
  asset_name : String
  download_count : Nat
  asset_size : Nat
  asset_url : String
  daily_change : Option Int := none
deriving DecidableEq

/-- The per-release group stored inside a day's JSON history entry. -/
structure ReleaseData where
  total_downloads : Nat
  assets : List StatRow
deriving DecidableEq

/-- A day's entry in the JSON history: day total plus releases grouped by tag
(an insertion-ordered association list, as the Python dict is). -/
structure DayData where
  total_downloads : Nat
  releases : List (String × ReleaseData)
deriving DecidableEq

/-- The JSON history file: calendar date to day entry, insertion-ordered. -/
abbrev History := List (String × DayData)

/-- Python str.startswith. -/
def starts_with (s p : String) : Bool :=
  p.toList.isPrefixOf s.toList

/-- Python string comparison is lexicographic on code points; the same
order as the linear order on the underlying character lists. -/
def str_lt (s t : String) : Bool :=
  decide (s.toList < t.toList)

/-- Python string less-or-equal, likewise on the character lists. -/
def str_le (s t : String) : Bool :=
  decide (s.toList ≤ t.toList)

/-- filter_v1_releases: keep releases whose tag_name starts with "v1.0.0". -/
def filter_v1_releases (releases : List Release) : List Release :=
  releases.filter (fun r => starts_with r.tag_name "v1.0.0")

/-- extract_download_stats: flatten releases into per-asset rows; releases
with no assets are skipped (the loop body contributes nothing for them). -/
def extract_download_stats (timestamp : String) (releases : List Release) : List StatRow :=
  releases.flatMap (fun r =>
    if r.assets = [] then []
    else r.assets.map (fun a =>
      { timestamp := timestamp
        release_tag := r.tag_name
        asset_name := a.name
        download_count := a.download_count
        asset_size := a.size
        asset_url := a.browser_download_url }))

/-! ## parse_semver (visualize_downloads.py lines 9-39) -/

/-- int() on the digit substring captured by a \d+ group. -/
def digits_to_nat (ds : List Char) : Nat :=
  ds.foldl (fun n c => n * 10 + (c.toNat - '0'.toNat)) 0

/-- The character class [a-zA-Z0-9-] of the prerelease label group. -/
def is_pre_char (c : Char) : Bool :=
  c.isAlpha || c.isDigit || c == '-'

/-- Match the regex tail [a-zA-Z0-9-]+(?:\.(\d+))?$ against the text after
the hyphen, returning (prerelease label, prerelease number; 0 if absent).
The label class excludes the dot, so greedy matching is forced. -/
def parse_prerelease (cs : List Char) : Option (String × Nat) :=
  let (a, r) := cs.span is_pre_char
  if a.isEmpty then none
  else
    match r with
    | [] => some (String.mk a, 0)
    | '.' :: b =>
      if !b.isEmpty && b.all Char.isDigit then some (String.mk a, digits_to_nat b)
      else none
    | _ => none

/-- Match ^(\d+)\.(\d+)\.(\d+)(?:-(label)(?:\.(\d+))?)?$ against the
v-stripped version text, returning (major, minor, patch, label, number). -/
def parse_core (cs : List Char) : Option (Nat × Nat × Nat × String × Nat) :=
  let (d1, r1) := cs.span Char.isDigit
  if d1.isEmpty then none
  else
    match r1 with
    | '.' :: r2 =>
      let (d2, r3) := r2.span Char.isDigit
      if d2.isEmpty then none
      else
        match r3 with
        | '.' :: r4 =>
          let (d3, r5) := r4.span Char.isDigit
          if d3.isEmpty then none
          else
            match r5 with
            | [] => some (digits_to_nat d1, digits_to_nat d2, digits_to_nat d3, "", 0)
            | '-' :: rest =>
              match parse_prerelease rest with
              | some (pre, num) =>
                some (digits_to_nat d1, digits_to_nat d2, digits_to_nat d3, pre, num)
              | none => none
            | _ => none
        | _ => none
    | _ => none

/-- The sort key returned by parse_semver. A parsed key is the tuple
(major, minor, patch, priority, label, number); an unparsable key models
the Python fallback tuple (inf, 0, 0, 0, text, 0), whose first component
exceeds every integer, so only its text component matters for ordering. -/
inductive SemverKey where
  | parsed (major minor patch priority : Nat) (pre : String) (num : Nat)
  | unparsable (text : String)
deriving DecidableEq

/-- version.lstrip of the leading v characters. -/
def strip_v (version : String) : String :=
  String.mk (version.toList.dropWhile (· == 'v'))

/-- parse_semver: strip leading v characters, match the semver pattern;
stable releases get priority 1, prereleases priority 0, and unparsable
strings fall back to a key carrying the stripped text. -/
def parse_semver (version : String) : SemverKey :=
  match parse_core (version.toList.dropWhile (· == 'v')) with
  | some (major, minor, patch, pre, num) =>
    SemverKey.parsed major minor patch (if pre == "" then 1 else 0) pre num
  | none => SemverKey.unparsable (strip_v version)

/-- Python tuple comparison on the sort keys: componentwise lexicographic,
with the infinite first component of the fallback tuple dominating. -/
def key_lt (k₁ k₂ : SemverKey) : Bool :=
  match k₁, k₂ with
  | .parsed .., .unparsable _ => true
  | .unparsable _, .parsed .. => false
  | .unparsable s, .unparsable t => str_lt s t
  | .parsed a₁ b₁ c₁ p₁ s₁ n₁, .parsed a₂ b₂ c₂ p₂ s₂ n₂ =>
    if a₁ ≠ a₂ then decide (a₁ < a₂)
    else if b₁ ≠ b₂ then decide (b₁ < b₂)
    else if c₁ ≠ c₂ then decide (c₁ < c₂)
    else if p₁ ≠ p₂ then decide (p₁ < p₂)
    else if s₁ ≠ s₂ then str_lt s₁ s₂
    else decide (n₁ < n₂)

example : parse_semver "v1.0.0-beta.2" = SemverKey.parsed 1 0 0 0 "beta" 2 := by decide
example : parse_semver "v1.0.0" = SemverKey.parsed 1 0 0 1 "" 0 := by decide
example : parse_semver "vfoo" = SemverKey.unparsable "foo" := by decide
example : key_lt (parse_semver "v1.0.0-beta.2") (parse_semver "v1.0.0-beta.10") = true := by decide

/-! ## Asset-name classification (visualize_downloads.py lines 100-119) -/

/-- Python substring containment (the in operator on strings). -/
def contains_sub (hay needle : List Char) : Bool :=
  match hay with
  | [] => needle.isEmpty
  | c :: t => needle.isPrefixOf (c :: t) || contains_sub t needle

/-- needle in hay, on strings. -/
def str_contains (hay needle : String) : Bool :=
  contains_sub hay.toList needle.toList

/-- Python str.lower, on the ASCII names these scripts see. -/
def to_lower_str (s : String) : String :=
  String.mk (s.toList.map Char.toLower)

/-- Architecture inferred from an asset filename. -/
def detect_arch (asset_name : String) : String :=
  let lower := to_lower_str asset_name
  if str_contains lower "aarch64" then "ARM64"
  else if str_contains lower "x86_64" then "x86_64"
  else "Unknown"

/-- Platform inferred from an asset filename; note the .exe test runs on
the original, uncased name, as in the source. -/
def detect_platform (asset_name : String) : String :=
  let lower := to_lower_str asset_name
  if str_contains lower "linux" then "Linux"
  else if str_contains lower "darwin" || str_contains lower "macos" then "macOS"
  else if str_contains lower "windows" || str_contains asset_name ".exe" then "Windows"
  else "Other"

/-- The combined pie-chart group label for an asset name. -/
def platform_arch (asset_name : String) : String :=
  detect_platform asset_name ++ " " ++ detect_arch asset_name

/-! ## create_asset_breakdown (visualize_downloads.py lines 81-123) -/

/-- asset_groups[platform_arch] += n, creating the dict entry at the end
on first sight, as a Python dict does. -/
def bump_group (gs : List (String × Nat)) (k : String) (n : Nat) : List (String × Nat) :=
  if gs.any (fun p => p.1 == k) then
    gs.map (fun p => if p.1 == k then (p.1, p.2 + n) else p)
  else gs ++ [(k, n)]

/-- The inner loop over one release's asset rows. -/
def add_release_assets (gs : List (String × Nat)) (assets : List StatRow) : List (String × Nat) :=
  assets.foldl (fun gs s => bump_group gs (platform_arch s.asset_name) s.download_count) gs

/-- The tag keys of a day entry, in dict order. -/
def release_keys (entry : DayData) : List String :=
  entry.releases.map (·.1)

/-- sorted(latest_data releases keys, reverse=True)[:5]. -/
def top_release_tags (entry : DayData) : List String :=
  ((release_keys entry).mergeSort (fun a b => str_le b a)).take 5

/-- Dict lookup on an association list (keys are unique in a JSON object,
so the first match is the match). -/
def rel_lookup (rels : List (String × ReleaseData)) (t : String) : Option ReleaseData :=
  (rels.find? (fun p => p.1 == t)).map (·.2)

/-- The pie-chart aggregation: iterate the selected tags, look each up in
the day entry, and accumulate download counts per platform/arch label.
The none branch is unreachable (tags are drawn from the entry's keys). -/
def asset_groups (entry : DayData) : List (String × Nat) :=
  (top_release_tags entry).foldl (fun gs t =>
    match rel_lookup entry.releases t with
    | some rd => add_release_assets gs rd.assets
    | none => gs) []

/-- Lookup in the aggregated groups; 0 for an absent label. -/
def group_count (gs : List (String × Nat)) (k : String) : Nat :=
  ((gs.find? (fun p => p.1 == k)).map (·.2)).getD 0

/-- Dict lookup into the history. -/
def history_lookup (h : History) (d : String) : Option DayData :=
  (h.find? (fun p => p.1 == d)).map (·.2)

/-- max(history.keys()): the maximum under Python string comparison,
keeping the earlier key on ties as Python max does. -/
def latest_date (h : History) : Option String :=
  match h.map (·.1) with
  | [] => none
  | k :: ks => some (ks.foldl (fun a b => if str_lt a b then b else a) k)

/-- create_asset_breakdown: select the latest (maximum) date key and
aggregate that entry; none when the history is empty (the code prints
and returns without drawing). -/
def create_asset_breakdown (h : History) : Option (List (String × Nat)) :=
  match latest_date h with
  | none => none
  | some d => (history_lookup h d).map asset_groups

/-! ## Persisters (nargo_download_tracker.py lines 76-161) -/

/-- sum(stat download_count for stat in stats). -/
def sum_downloads (stats : List StatRow) : Nat :=
  (stats.map (·.download_count)).sum

/-- The in-place dict update of the grouping loop: the entry under the
stat's tag gets the stat appended and its count added. -/
def add_stat_update (s : StatRow) (p : String × ReleaseData) : String × ReleaseData :=
  if p.1 == s.release_tag then
    (p.1, { total_downloads := p.2.total_downloads + s.download_count
            assets := p.2.assets ++ [s] })
  else p

/-- One step of the grouping loop of save_to_json: append the stat to its
tag's asset list and add its count, creating the group on first sight. -/
def add_stat_to_releases (rels : List (String × ReleaseData)) (s : StatRow) :
    List (String × ReleaseData) :=
  if rels.any (fun p => p.1 == s.release_tag) then
    rels.map (add_stat_update s)
  else
    rels ++ [(s.release_tag, { total_downloads := s.download_count, assets := [s] })]

/-- The day summary save_to_json builds: day total plus releases grouped
by tag in order of first appearance. -/
def day_data (stats : List StatRow) : DayData :=
  { total_downloads := sum_downloads stats
    releases := stats.foldl add_stat_to_releases [] }

/-- history[date_str] = day_data: replace the entry in place when the key
exists (dict update keeps the key's position), else append it. -/
def update_history (h : History) (date : String) (v : DayData) : History :=
  if h.any (fun p => p.1 == date) then
    h.map (fun p => if p.1 == date then (p.1, v) else p)
  else h ++ [(date, v)]

/-- save_to_json: upsert the current date's freshly grouped entry into the
loaded history (an absent file loads as the empty history). -/
def save_to_json (h : History) (date_str : String) (stats : List StatRow) : History :=
  update_history h date_str (day_data stats)

/-- A line of one of the two tabular log files. -/
inductive CsvLine where
  | header (fields : List String)
  | assetRow (s : StatRow)
  | totalRow (date timestamp : String) (total : Nat)
deriving DecidableEq

/-- fieldnames = stats[0].keys(): the insertion order of the row dict,
with daily_change last when calculate_daily_changes added it. -/
def asset_fieldnames (s : StatRow) : List String :=
  ["timestamp", "release_tag", "asset_name", "download_count",
   "asset_size", "asset_url"] ++ (if s.daily_change.isSome then ["daily_change"] else [])

/-- save_to_csv over the per-asset log, the file modelled as none when
absent. Opening in append mode creates a missing file even when the
stats list is empty and nothing is written. Returns the new file
contents and whether the header row was written on this call. -/
def save_to_csv (file : Option (List CsvLine)) (stats : List StatRow) :
    Option (List CsvLine) × Bool :=
  let ls := file.getD []
  match stats with
  | [] => (some ls, false)
  | s :: _ =>
    let withHeader := if file.isSome then ls else ls ++ [CsvLine.header (asset_fieldnames s)]
    (some (withHeader ++ stats.map CsvLine.assetRow), !file.isSome)

/-- save_daily_totals_csv: always appends exactly one total row, writing
the header first when the file did not exist. -/
def save_daily_totals_csv (file : Option (List CsvLine)) (date_str timestamp : String)
    (stats : List StatRow) : Option (List CsvLine) × Bool :=
  let ls := file.getD []
  let withHeader :=
    if file.isSome then ls
    else ls ++ [CsvLine.header ["date", "timestamp", "total_downloads"]]
  (some (withHeader ++ [CsvLine.totalRow date_str timestamp (sum_downloads stats)]), !file.isSome)

/-! ## calculate_daily_changes (nargo_download_tracker.py lines 163-192) -/

/-- Flatten the previous day's grouped releases into the previous_stats
dict: the concatenated key release_tag + underscore + asset_name of each
recorded row, paired with its count, in iteration order. -/
def flatten_prev (rels : List (String × ReleaseData)) : List (String × Nat) :=
  rels.flatMap (fun p =>
    p.2.assets.map (fun s => (s.release_tag ++ "_" ++ s.asset_name, s.download_count)))

/-- previous_stats.get(key, 0): on duplicate keys the last write wins, so
look up the last matching pair. -/
def lookup_last (l : List (String × Nat)) (k : String) : Nat :=
  ((l.filter (fun p => p.1 == k)).getLast?.map (·.2)).getD 0

/-- The body of calculate_daily_changes once the history file was found:
the previous date is the last of the sorted date keys, and every current
row gets daily_change set to its count minus the previous count under
its concatenated key (0 when absent). -/
def apply_daily_changes (history : History) (current_stats : List StatRow) : List StatRow :=
  match ((history.map (·.1)).mergeSort (fun a b => str_le a b)).getLast? with
  | none => current_stats
  | some previous_date =>
    let previous_data := (history_lookup history previous_date).getD ⟨0, []⟩
    let previous_stats := flatten_prev previous_data.releases
    current_stats.map (fun s =>
      { s with daily_change := some ((s.download_count : Int) -
          (lookup_last previous_stats (s.release_tag ++ "_" ++ s.asset_name) : Int)) })

/-- calculate_daily_changes: none models an absent history file, in which
case the rows are returned untouched. -/
def calculate_daily_changes (hist : Option History) (current_stats : List StatRow) :
    List StatRow :=
  match hist with
  | none => current_stats
  | some history => apply_daily_changes history current_stats

/-! ## fetch_releases (nargo_download_tracker.py lines 19-44) -/

/-- One page's worth of API response: the HTTP status and, for success
responses, the decoded list of releases. -/
structure PageResponse where
  status : Nat
  body : List Release

/-- The fixed pagination ceiling (GitHub returns at most 1000 results,
10 pages at 100 per page). -/
def max_pages : Nat := 10

/-- Does requests raise_for_status raise for this status code? -/
def raises_for_status (status : Nat) : Bool :=
  decide (400 ≤ status) && decide (status < 600)

/-- The while loop of fetch_releases over an abstract page-to-response
mapping. Returns the pages requested, in order, and either the collected
releases or the status that aborted the run. A 422 stops the loop and
returns what was collected so far. -/
def fetch_releases_aux (resp : Nat → PageResponse) (page : Nat) (acc : List Release) :
    List Nat × Except Nat (List Release) :=
  if _h : page ≤ max_pages then
    let r := resp page
    if r.status = 422 then ([page], .ok acc)
    else if raises_for_status r.status then ([page], .error r.status)
    else if r.body = [] then ([page], .ok acc)
    else
      let rest := fetch_releases_aux resp (page + 1) (acc ++ r.body)
      (page :: rest.1, rest.2)
  else ([], .ok acc)
termination_by max_pages + 1 - page
decreasing_by omega

/-- fetch_releases: run the loop from page 1 with an empty collection. -/
def fetch_releases (resp : Nat → PageResponse) : List Nat × Except Nat (List Release) :=
  fetch_releases_aux resp 1 []

/-- The stopping conditions of the pagination loop at one response:
window exhaustion (422), an aborting status, or an empty page. -/
def stop_response (r : PageResponse) : Bool :=
  decide (r.status = 422) || raises_for_status r.status || decide (r.body = [])

/-! ## Supporting lemmas -/

/-- The priority component of a parsed key is determined by the label:
1 for a stable release, 0 for a prerelease. -/
lemma parse_semver_priority {s : String} {a b c p : Nat} {q : String} {n : Nat}
    (h : parse_semver s = SemverKey.parsed a b c p q n) :
    p = if q == "" then 1 else 0 := by
  unfold parse_semver at h
  split at h
  · injection h with h1 h2 h3 h4 h5 h6
    rw [← h4, ← h5]
  · cases h

/-- The fallback key carries the v-stripped text of the version string. -/
lemma parse_semver_unparsable_text {s u : String}
    (h : parse_semver s = SemverKey.unparsable u) : u = strip_v s := by
  unfold parse_semver at h
  split at h
  · cases h
  · injection h with h1
    exact h1.symm

/-! ## Claim theorems -/

/-- Claim C8: the platform/architecture inference sends
"noir-x86_64-unknown-linux-gnu.tar.gz" to Linux x86_64 and "noir.exe"
to Windows Unknown. -/
theorem c8_platform_arch_inference :
    platform_arch "noir-x86_64-unknown-linux-gnu.tar.gz" = "Linux x86_64" ∧
    platform_arch "noir.exe" = "Windows Unknown" := by
  constructor
  · decide
  · decide

/-- Claim C6: filter_v1_releases returns exactly the input releases whose
tag starts with the fixed "v1.0.0" target; "v1.0.0-beta.9" and "v1.0.0"
qualify, "v0.9.0" does not. -/
theorem c6_filter_v1_releases (rs : List Release) (r : Release) :
    (r ∈ filter_v1_releases rs ↔ r ∈ rs ∧ starts_with r.tag_name "v1.0.0" = true) ∧
    starts_with "v1.0.0-beta.9" "v1.0.0" = true ∧
    starts_with "v1.0.0" "v1.0.0" = true ∧
    starts_with "v0.9.0" "v1.0.0" = false :=
  ⟨List.mem_filter, by decide, by decide, by decide⟩

/-- Claim C1: a prerelease version sorts strictly before the stable
release of the same major.minor.patch, and in particular
v1.0.0-beta.2 < v1.0.0-beta.10 < v1.0.0 under the parse_semver keys. -/
theorem c1_prerelease_sorts_before_stable (s t : String) (maj mi pa pr num : Nat)
    (pre : String)
    (hs : parse_semver s = SemverKey.parsed maj mi pa pr pre num)
    (hpre : pre ≠ "")
    (ht : parse_semver t = SemverKey.parsed maj mi pa 1 "" 0) :
    key_lt (parse_semver s) (parse_semver t) = true ∧
    key_lt (parse_semver "v1.0.0-beta.2") (parse_semver "v1.0.0-beta.10") = true ∧
    key_lt (parse_semver "v1.0.0-beta.10") (parse_semver "v1.0.0") = true := by
  refine ⟨?_, by decide, by decide⟩
  have hp : pr = 0 := by
    rw [parse_semver_priority hs, if_neg (by simpa using hpre)]
  subst hp
  rw [hs, ht]
  simp [key_lt]

/-- Witness for C1 at s = v1.0.0-beta.2, t = v1.0.0. -/
theorem c1_witness :
    key_lt (parse_semver "v1.0.0-beta.2") (parse_semver "v1.0.0") = true :=
  (c1_prerelease_sorts_before_stable "v1.0.0-beta.2" "v1.0.0" 1 0 0 0 2 "beta"
    (by decide) (by decide) (by decide)).1

/-- Counterexample to C7: two unparsable strings are not ordered by their
literal text; "va" keys before "b" because the stored fallback text has
the leading v stripped, while the literal text "va" sorts after "b". -/
theorem c7_counterexample_literal_text :
    ¬ (key_lt (parse_semver "va") (parse_semver "b") = true ↔
        str_lt "va" "b" = true) := by
  decide

/-- Claim C7 as amended: parse_semver is total (it is a Lean function);
the key of every parsable string sorts strictly before the key of every
unparsable string, and two unparsable strings are ordered by their text
after stripping leading v characters. -/
theorem c7_unparsable_order_amended (s u : String)
    (hs : parse_semver s = SemverKey.unparsable u) :
    (∀ (t : String) (a b c p : Nat) (q : String) (n : Nat),
        parse_semver t = SemverKey.parsed a b c p q n →
        key_lt (parse_semver t) (parse_semver s) = true) ∧
    (∀ (t w : String), parse_semver t = SemverKey.unparsable w →
        (key_lt (parse_semver s) (parse_semver t) = true ↔
          str_lt (strip_v s) (strip_v t) = true)) := by
  constructor
  · intro t a b c p q n ht
    rw [hs, ht]
    rfl
  · intro t w ht
    have hu := parse_semver_unparsable_text hs
    have hw := parse_semver_unparsable_text ht
    rw [hs, ht, ← hu, ← hw]
    exact Iff.rfl

/-- Witness for C7 at the unparsable strings "va" and "b" and the
parsable "v1.2.3". -/
theorem c7_witness :
    key_lt (parse_semver "v1.2.3") (parse_semver "va") = true ∧
    (key_lt (parse_semver "va") (parse_semver "b") = true ↔
      str_lt (strip_v "va") (strip_v "b") = true) :=
  ⟨(c7_unparsable_order_amended "va" "a" (by decide)).1 "v1.2.3" 1 2 3 1 "" 0 (by decide),
   (c7_unparsable_order_amended "va" "a" (by decide)).2 "b" "b" (by decide)⟩

/-- A row with its delta field cleared; two rows agree on every other
field exactly when erase_change sends them to the same row. -/
def erase_change (s : StatRow) : StatRow :=
  { s with daily_change := none }

/-- Claim C10: calculate_daily_changes keeps the rows, their order and
every field other than daily_change intact, and where daily_change does
change it is set to some value, never removed. -/
theorem c10_frame_effect (hist : Option History) (stats : List StatRow) :
    (calculate_daily_changes hist stats).map erase_change = stats.map erase_change ∧
    List.Forall₂ (fun r s => r.daily_change = s.daily_change ∨ ∃ c, r.daily_change = some c)
      (calculate_daily_changes hist stats) stats := by
  have hrefl : ∀ l : List StatRow,
      List.Forall₂ (fun r s => r.daily_change = s.daily_change ∨ ∃ c, r.daily_change = some c)
        l l :=
    fun l => List.forall₂_same.mpr (fun a _ => Or.inl rfl)
  cases hist with
  | none => exact ⟨rfl, hrefl _⟩
  | some history =>
    rw [show calculate_daily_changes (some history) stats
          = apply_daily_changes history stats from rfl]
    unfold apply_daily_changes
    split
    · exact ⟨rfl, hrefl _⟩
    · constructor
      · rw [List.map_map]
        rfl
      · refine List.forall₂_map_left_iff.mpr
          (List.forall₂_same.mpr (fun s _ => ?_))
        exact Or.inr ⟨_, rfl⟩

/-- Claim C4: save_to_json binds the current date to the freshly grouped
day entry, fully replacing any existing entry of that date, and leaves
the entry of every other date exactly as it was. -/
theorem c4_save_to_json_upsert (h : History) (date_str d : String) (stats : List StatRow) :
    history_lookup (save_to_json h date_str stats) d =
      if d = date_str then some (day_data stats) else history_lookup h d := by
  unfold save_to_json update_history
  by_cases hany : h.any (fun p => p.1 == date_str)
  · rw [if_pos hany]
    unfold history_lookup
    rw [List.find?_map]
    have hfun : ((fun p : String × DayData => p.1 == d) ∘
        (fun p : String × DayData => if p.1 == date_str then (p.1, day_data stats) else p))
        = (fun p : String × DayData => p.1 == d) := by
      funext p
      by_cases hp : p.1 = date_str <;> simp [hp]
    rw [hfun]
    by_cases hd : d = date_str
    · subst hd
      rw [if_pos rfl]
      have hsome : (h.find? (fun p => p.1 == d)).isSome := by
        obtain ⟨x, hx, hxd⟩ := List.any_eq_true.mp hany
        exact List.find?_isSome.mpr ⟨x, hx, hxd⟩
      obtain ⟨pr, hfind⟩ := Option.isSome_iff_exists.mp hsome
      have hkey := List.find?_some hfind
      rw [hfind]
      simp at hkey
      simp [hkey]
    · rw [if_neg hd]
      cases hfind : h.find? (fun p => p.1 == d) with
      | none => rfl
      | some pr =>
        have hkey := List.find?_some hfind
        simp at hkey
        have hne : ¬ pr.1 = date_str := by
          rw [hkey]
          exact hd
        simp [hne]
  · rw [if_neg hany]
    unfold history_lookup
    rw [List.find?_append]
    by_cases hd : d = date_str
    · subst hd
      have hnone : h.find? (fun p => p.1 == d) = none := by
        refine List.find?_eq_none.mpr (fun x hx => ?_)
        intro hxd
        exact hany (List.any_eq_true.mpr ⟨x, hx, hxd⟩)
      rw [hnone, if_pos rfl]
      simp [List.find?]
    · rw [if_neg hd]
      have hone : (([(date_str, day_data stats)] : History).find? (fun p => p.1 == d)) = none := by
        rw [List.find?_cons_of_neg]
        · rfl
        · simp
          exact fun hdd => hd hdd.symm
      rw [hone]
      cases h.find? (fun p => p.1 == d) <;> rfl

/-- The pagination invariant of fetch_releases_aux, over the pages it
requests and the result it returns when started at a given page with a
given accumulator. -/
def FetchSpec (resp : Nat → PageResponse) (page : Nat) (acc : List Release)
    (pages : List Nat) (res : Except Nat (List Release)) : Prop :=
  pages = List.range' page pages.length ∧
  page + pages.length ≤ max_pages + 1 ∧
  (page ≤ max_pages → 0 < pages.length) ∧
  pages.dropLast.all (fun p => !stop_response (resp p)) = true ∧
  (page + pages.length = max_pages + 1 ∨ pages.length = 0 ∨
    stop_response (resp (page + pages.length - 1)) = true) ∧
  (pages.length = 0 → res = Except.ok acc) ∧
  ((pages.length = 0 ∨ (resp (page + pages.length - 1)).status ≠ 422) ∨
    res = Except.ok (acc ++
      (List.range' page (pages.length - 1)).flatMap (fun p => (resp p).body)))

/-- The loop terminates past the ceiling with nothing requested. -/
lemma fetch_aux_past_ceiling (resp : Nat → PageResponse) (page : Nat)
    (acc : List Release) (hp : page = max_pages + 1) :
    FetchSpec resp page acc (fetch_releases_aux resp page acc).1
      (fetch_releases_aux resp page acc).2 := by
  subst hp
  rw [fetch_releases_aux, dif_neg (by omega)]
  exact ⟨rfl, by simp, fun h => absurd h (by omega), rfl,
    Or.inl (by simp), fun _ => rfl, Or.inl (Or.inl rfl)⟩

/-- The pagination invariant holds for every starting page within bounds
(fuel is an upper bound on the remaining pages, driving the induction). -/
lemma fetch_aux_spec (resp : Nat → PageResponse) :
    ∀ (fuel page : Nat) (acc : List Release),
      max_pages + 1 - page ≤ fuel → 1 ≤ page → page ≤ max_pages + 1 →
      FetchSpec resp page acc (fetch_releases_aux resp page acc).1
        (fetch_releases_aux resp page acc).2 := by
  intro fuel
  induction fuel with
  | zero =>
    intro page acc hf h1 h2
    exact fetch_aux_past_ceiling resp page acc (by omega)
  | succ fuel ih =>
    intro page acc hf h1 h2
    by_cases hp : page ≤ max_pages
    case neg => exact fetch_aux_past_ceiling resp page acc (by omega)
    case pos =>
    rw [fetch_releases_aux, dif_pos hp]
    by_cases h422 : (resp page).status = 422
    · rw [if_pos h422]
      refine ⟨rfl, by simpa using hp, fun _ => one_pos, rfl, ?_, by simp, ?_⟩
      · exact Or.inr (Or.inr (by simp [stop_response, h422]))
      · exact Or.inr (by simp)
    · rw [if_neg h422]
      by_cases hraise : raises_for_status (resp page).status = true
      · rw [if_pos hraise]
        refine ⟨rfl, by simpa using hp, fun _ => one_pos, rfl, ?_, by simp, ?_⟩
        · exact Or.inr (Or.inr (by simp [stop_response, hraise]))
        · exact Or.inl (Or.inr (by simpa using h422))
      · rw [if_neg hraise]
        by_cases hempty : (resp page).body = []
        · rw [if_pos hempty]
          refine ⟨rfl, by simpa using hp, fun _ => one_pos, rfl, ?_, by simp, ?_⟩
          · exact Or.inr (Or.inr (by simp [stop_response, hempty]))
          · exact Or.inl (Or.inr (by simpa using h422))
        · rw [if_neg hempty]
          have hstop : stop_response (resp page) = false := by
            simp [stop_response, h422, hempty]
            simpa using hraise
          obtain ⟨i1, i2, i3, i4, i5, i6, i7⟩ :=
            ih (page + 1) (acc ++ (resp page).body) (by omega) (by omega) (by omega)
          set rest := fetch_releases_aux resp (page + 1) (acc ++ (resp page).body) with hr
          refine ⟨?_, by simp; omega, fun _ => by simp, ?_, ?_, by simp, ?_⟩
          · show page :: rest.1 = List.range' page (page :: rest.1).length
            rw [List.length_cons, List.range'_succ]
            exact congrArg (page :: ·) i1
          · show (page :: rest.1).dropLast.all (fun p => !stop_response (resp p)) = true
            cases hrl : rest.1 with
            | nil => simp
            | cons a l =>
              rw [List.dropLast_cons_of_ne_nil (by simp), List.all_cons, hstop, ← hrl]
              simpa using i4
          · show page + (page :: rest.1).length = max_pages + 1 ∨
              (page :: rest.1).length = 0 ∨
              stop_response (resp (page + (page :: rest.1).length - 1)) = true
            rw [List.length_cons]
            by_cases hm0 : rest.1.length = 0
            · have : ¬ page + 1 ≤ max_pages := fun hle => by
                have := i3 hle
                omega
              exact Or.inl (by omega)
            · rcases i5 with h5 | h5 | h5
              · exact Or.inl (by omega)
              · exact absurd h5 hm0
              · refine Or.inr (Or.inr ?_)
                have harith : page + 1 + rest.1.length - 1
                    = page + (rest.1.length + 1) - 1 := by omega
                rwa [harith] at h5
          · show ((page :: rest.1).length = 0 ∨
                (resp (page + (page :: rest.1).length - 1)).status ≠ 422) ∨
              rest.2 = Except.ok (acc ++
                (List.range' page ((page :: rest.1).length - 1)).flatMap
                  (fun p => (resp p).body))
            rw [List.length_cons]
            by_cases hm0 : rest.1.length = 0
            · refine Or.inl (Or.inr ?_)
              have harith : page + (rest.1.length + 1) - 1 = page := by omega
              rw [harith]
              exact h422
            · rcases i7 with (h7 | h7) | h7
              · exact absurd h7 hm0
              · refine Or.inl (Or.inr ?_)
                have harith : page + 1 + rest.1.length - 1
                    = page + (rest.1.length + 1) - 1 := by omega
                rwa [harith] at h7
              · refine Or.inr ?_
                obtain ⟨m', hm'⟩ : ∃ m', rest.1.length = m' + 1 :=
                  ⟨rest.1.length - 1, by omega⟩
                rw [hm'] at h7 ⊢
                rw [show m' + 1 + 1 - 1 = m' + 1 from by omega,
                  List.range'_succ, List.flatMap_cons, ← List.append_assoc]
                rw [show m' + 1 - 1 = m' from by omega] at h7
                exact h7

/-- Claim C2: fetch_releases requests pages 1, 2, ... in order, never past
the ceiling of 10; every non-final page got a continue response (no 422,
no raising status, nonempty body); the final page either is the ceiling
or satisfied a stop condition; and a 422 on the final page yields normal
termination with the releases collected from the earlier pages. -/
theorem c2_fetch_pagination (resp : Nat → PageResponse) :
    (fetch_releases resp).1 = List.range' 1 (fetch_releases resp).1.length ∧
    0 < (fetch_releases resp).1.length ∧
    (fetch_releases resp).1.length ≤ max_pages ∧
    (fetch_releases resp).1.dropLast.all (fun p => !stop_response (resp p)) = true ∧
    ((fetch_releases resp).1.length = max_pages ∨
      stop_response (resp (fetch_releases resp).1.length) = true) ∧
    ((resp (fetch_releases resp).1.length).status ≠ 422 ∨
      (fetch_releases resp).2 = Except.ok
        ((List.range' 1 ((fetch_releases resp).1.length - 1)).flatMap
          (fun p => (resp p).body))) := by
  unfold fetch_releases
  obtain ⟨i1, i2, i3, i4, i5, i6, i7⟩ :=
    fetch_aux_spec resp max_pages 1 [] (by omega) le_rfl (by omega)
  have hpos : 0 < (fetch_releases_aux resp 1 []).1.length := i3 (by decide)
  have hidx : 1 + (fetch_releases_aux resp 1 []).1.length - 1
      = (fetch_releases_aux resp 1 []).1.length := by
    omega
  refine ⟨i1, hpos, by omega, i4, ?_, ?_⟩
  · rcases i5 with h | h | h
    · exact Or.inl (by omega)
    · omega
    · rw [hidx] at h
      exact Or.inr h
  · rcases i7 with (h | h) | h
    · omega
    · rw [hidx] at h
      exact Or.inl h
    · rw [List.nil_append] at h
      exact Or.inr h

/-- Is the first line of the file the header row? -/
def head_is_header (file : Option (List CsvLine)) : Bool :=
  match file with
  | some (CsvLine.header _ :: _) => true
  | _ => false

/-- A concrete stat row used in counterexamples and witnesses. -/
def sample_row : StatRow :=
  { timestamp := "2026-01-01T00:00:00"
    release_tag := "v1.0.0"
    asset_name := "noir-x86_64-unknown-linux-gnu.tar.gz"
    download_count := 5
    asset_size := 10
    asset_url := "https://example.invalid/noir.tar.gz" }

/-- Counterexample to C9: calling save_to_csv with an empty stats batch
when the log file does not yet exist writes no header (the iff of the
claim fails), creates an empty file, and a later call with rows then
appends them without a header, so the file never has the header as its
first line. -/
theorem c9_counterexample_empty_stats :
    (save_to_csv none []).2 = false ∧
    (save_to_csv none []).1 = some [] ∧
    head_is_header (save_to_csv (save_to_csv none []).1 [sample_row]).1 = false ∧
    (save_to_csv (save_to_csv none []).1 [sample_row]).1 ≠ none := by
  refine ⟨rfl, rfl, rfl, ?_⟩
  simp [save_to_csv]

/-- Claim C9 as amended: save_daily_totals_csv writes the header exactly
when the file does not yet exist, and thereafter the header is the first
line; save_to_csv writes the header exactly when the file does not yet
exist and the stats batch is nonempty, so its log starts with the header
exactly when it already did or this call created the file with a
nonempty batch. -/
theorem c9_header_once_amended (file : Option (List CsvLine)) (stats : List StatRow)
    (d t : String) :
    (save_to_csv file stats).2 = (file.isNone && !stats.isEmpty) ∧
    (save_daily_totals_csv file d t stats).2 = file.isNone ∧
    head_is_header (save_to_csv file stats).1
      = (head_is_header file || (file.isNone && !stats.isEmpty)) ∧
    head_is_header (save_daily_totals_csv file d t stats).1
      = (head_is_header file || file.isNone) := by
  rcases file with _ | (_ | ⟨l, ls⟩)
  · rcases stats with _ | ⟨s, rest⟩ <;>
      exact ⟨rfl, rfl, rfl, rfl⟩
  · rcases stats with _ | ⟨s, rest⟩ <;>
      exact ⟨rfl, rfl, rfl, rfl⟩
  · rcases stats with _ | ⟨s, rest⟩ <;> rcases l with ⟨fs⟩ | ⟨r⟩ | ⟨d', t', n⟩ <;>
      exact ⟨rfl, rfl, rfl, rfl⟩

/-- The claim-side lookup of C3: the count recorded in a day entry for a
given (release_tag, asset_name) pair. -/
def pair_lookup (rels : List (String × ReleaseData)) (tag name : String) : Option Nat :=
  ((rels.flatMap (fun p => p.2.assets)).find?
    (fun s => s.release_tag == tag && s.asset_name == name)).map (·.download_count)

lemma str_le_trans (a b c : String) (hab : str_le a b = true) (hbc : str_le b c = true) :
    str_le a c = true := by
  simp only [str_le, decide_eq_true_eq] at *
  exact le_trans hab hbc

lemma str_le_total (a b : String) : (str_le a b || str_le b a) = true := by
  simp only [str_le, Bool.or_eq_true, decide_eq_true_eq]
  exact le_total _ _

lemma string_eq_of_toList_eq {s t : String} (h : s.toList = t.toList) : s = t := by
  cases s
  cases t
  exact congrArg String.mk h

/-- The last element of the sort of the date keys is the maximal key. -/
lemma sorted_getLast_eq_max (l : List String) (D : String) (hD : D ∈ l)
    (hmax : ∀ d ∈ l, d.toList ≤ D.toList) :
    (l.mergeSort (fun a b => str_le a b)).getLast? = some D := by
  have hperm : (l.mergeSort (fun a b => str_le a b)).Perm l := List.mergeSort_perm l _
  have hsorted : (l.mergeSort (fun a b => str_le a b)).Pairwise
      (fun a b => str_le a b = true) :=
    List.sorted_mergeSort str_le_trans str_le_total l
  have hne : l.mergeSort (fun a b => str_le a b) ≠ [] := by
    intro h0
    rw [h0] at hperm
    rw [List.nil_perm.mp hperm] at hD
    exact List.not_mem_nil D hD
  have hsome : (l.mergeSort (fun a b => str_le a b)).getLast?.isSome :=
    List.getLast?_isSome.mpr hne
  obtain ⟨x, hx⟩ := Option.isSome_iff_exists.mp hsome
  obtain ⟨ys, hys⟩ := List.getLast?_eq_some_iff.mp hx
  have hxl : x ∈ l := hperm.subset
    (by rw [hys]; exact List.mem_append_right ys (List.mem_singleton_self x))
  have hxD : x.toList ≤ D.toList := hmax x hxl
  have hDL : D ∈ ys ++ [x] := by
    rw [← hys]
    exact hperm.mem_iff.mpr hD
  rcases List.mem_append.mp hDL with hDy | hDx
  · have hle : str_le D x = true := by
      rw [hys] at hsorted
      exact (List.pairwise_append.mp hsorted).2.2 D hDy x (List.mem_singleton_self x)
    have hDx' : D.toList ≤ x.toList := by
      simpa [str_le, decide_eq_true_eq] using hle
    rw [hx, string_eq_of_toList_eq (le_antisymm hDx' hxD)]
  · rw [hx, List.mem_singleton.mp hDx]

/-- With a nonempty history, calculate_daily_changes sets every row's
daily_change to its count minus the previous count recorded under its
concatenated key in the entry of the maximal (chronologically last, for
ISO dates) date key. -/
lemma daily_changes_formula (history : History) (stats : List StatRow) (D : String)
    (hD : D ∈ history.map (·.1))
    (hmax : ∀ d ∈ history.map (·.1), d.toList ≤ D.toList) :
    calculate_daily_changes (some history) stats = stats.map (fun s =>
      { s with daily_change := some ((s.download_count : Int) -
          (lookup_last (flatten_prev (((history_lookup history D).getD ⟨0, []⟩).releases))
            (s.release_tag ++ "_" ++ s.asset_name) : Int)) }) := by
  rw [show calculate_daily_changes (some history) stats
        = apply_daily_changes history stats from rfl]
  unfold apply_daily_changes
  rw [sorted_getLast_eq_max (history.map (·.1)) D hD hmax]

/-- The (concatenated key, count) pair a recorded row contributes to the
previous_stats dict. -/
def prev_pair (s : StatRow) : String × Nat :=
  (s.release_tag ++ "_" ++ s.asset_name, s.download_count)

lemma flatten_prev_cons (k : String) (rd : ReleaseData)
    (rest : List (String × ReleaseData)) :
    flatten_prev ((k, rd) :: rest) = rd.assets.map prev_pair ++ flatten_prev rest := rfl

lemma flatten_prev_append (l₁ l₂ : List (String × ReleaseData)) :
    flatten_prev (l₁ ++ l₂) = flatten_prev l₁ ++ flatten_prev l₂ :=
  List.flatMap_append l₁ l₂ _

lemma add_stat_update_fst (s : StatRow) (p : String × ReleaseData) :
    (add_stat_update s p).1 = p.1 := by
  unfold add_stat_update
  split <;> rfl

lemma add_stat_keys (rels : List (String × ReleaseData)) (s : StatRow) :
    (add_stat_to_releases rels s).map (·.1)
      = if rels.any (fun p => p.1 == s.release_tag) then rels.map (·.1)
        else rels.map (·.1) ++ [s.release_tag] := by
  unfold add_stat_to_releases
  split
  · rw [List.map_map]
    exact List.map_congr_left fun p _ => add_stat_update_fst s p
  · rw [List.map_append]
    rfl

lemma add_stat_nodup (rels : List (String × ReleaseData)) (s : StatRow)
    (h : (rels.map (·.1)).Nodup) :
    ((add_stat_to_releases rels s).map (·.1)).Nodup := by
  rw [add_stat_keys]
  split
  · exact h
  · rename_i hany
    have hnot : s.release_tag ∉ rels.map (·.1) := by
      intro hmem
      obtain ⟨p, hp, hpk⟩ := List.mem_map.mp hmem
      exact hany (List.any_eq_true.mpr ⟨p, hp, by simp [hpk]⟩)
    simp [List.nodup_append, h, hnot]

/-- Adding one stat to uniquely keyed groups contributes exactly its own
(key, count) pair to the flattened previous_stats entries. -/
lemma flatten_add_stat_perm (rels : List (String × ReleaseData)) (s : StatRow)
    (h : (rels.map (·.1)).Nodup) :
    (flatten_prev (add_stat_to_releases rels s)).Perm
      (flatten_prev rels ++ [prev_pair s]) := by
  induction rels with
  | nil =>
    simp [add_stat_to_releases, flatten_prev, prev_pair]
  | cons hd tl ih =>
    obtain ⟨k, rd⟩ := hd
    rw [List.map_cons] at h
    have hknotin : k ∉ tl.map (·.1) := (List.nodup_cons.mp h).1
    have htlnd : (tl.map (·.1)).Nodup := (List.nodup_cons.mp h).2
    by_cases hk : k = s.release_tag
    · have htl : tl.map (add_stat_update s) = tl := by
        have := List.map_congr_left (l := tl)
          (f := add_stat_update s) (g := id) (fun p hp => by
            have hpk : ¬ p.1 = s.release_tag := fun hpk =>
              hknotin (by
                rw [hk, ← hpk]
                exact List.mem_map_of_mem _ hp)
            unfold add_stat_update
            rw [if_neg (by simpa using hpk)]
            rfl)
        rw [this, List.map_id]
      unfold add_stat_to_releases
      rw [if_pos (by simp [hk]), List.map_cons, htl]
      have hghead : add_stat_update s (k, rd)
          = (k, { total_downloads := rd.total_downloads + s.download_count
                  assets := rd.assets ++ [s] }) := by
        unfold add_stat_update
        rw [if_pos (by simp [hk])]
      rw [hghead, flatten_prev_cons, flatten_prev_cons]
      show ((rd.assets ++ [s]).map prev_pair ++ flatten_prev tl).Perm _
      rw [List.map_append, List.append_assoc, List.append_assoc]
      exact List.Perm.append_left _ (List.perm_append_comm)
    · unfold add_stat_to_releases
      have hkb : (((k, rd) : String × ReleaseData).1 == s.release_tag) = false := by
        simp [hk]
      rw [List.any_cons, hkb, Bool.false_or]
      by_cases hany : tl.any (fun p => p.1 == s.release_tag) = true
      · rw [if_pos hany, List.map_cons]
        have hhead : add_stat_update s (k, rd) = (k, rd) := by
          unfold add_stat_update
          rw [if_neg (by simp [hk])]
        rw [hhead, flatten_prev_cons, flatten_prev_cons, List.append_assoc]
        have haddtl : add_stat_to_releases tl s = tl.map (add_stat_update s) := by
          unfold add_stat_to_releases
          rw [if_pos hany]
        refine List.Perm.append_left _ ?_
        rw [← haddtl]
        exact ih htlnd
      · rw [if_neg hany, flatten_prev_append]
        exact List.Perm.refl _

/-- The grouping fold of save_to_json flattens back to exactly the input
rows' (key, count) pairs, up to order. -/
lemma flatten_foldl_perm (stats : List StatRow) :
    ∀ (rels : List (String × ReleaseData)), (rels.map (·.1)).Nodup →
      (flatten_prev (stats.foldl add_stat_to_releases rels)).Perm
        (flatten_prev rels ++ stats.map prev_pair) := by
  induction stats with
  | nil =>
    intro rels _
    simp
  | cons s t ih =>
    intro rels h
    rw [List.foldl_cons]
    refine (ih _ (add_stat_nodup rels s h)).trans ?_
    refine ((flatten_add_stat_perm rels s h).append_right _).trans ?_
    rw [List.append_assoc]
    exact List.Perm.refl _

/-- Within a uniquely keyed run, the previous_stats entry under a row's
own key is that row's pair, and it is the only one. -/
lemma filter_prev_pair_singleton (l : List StatRow) (s : StatRow)
    (hnd : (l.map (fun r => r.release_tag ++ "_" ++ r.asset_name)).Nodup)
    (hs : s ∈ l) :
    (l.map prev_pair).filter
        (fun p => p.1 == s.release_tag ++ "_" ++ s.asset_name)
      = [prev_pair s] := by
  induction l with
  | nil => cases hs
  | cons a t ih =>
    rw [List.map_cons] at hnd
    have hnda := (List.nodup_cons.mp hnd).1
    have hndt := (List.nodup_cons.mp hnd).2
    rw [List.map_cons, List.filter_cons]
    by_cases hkey : (prev_pair a).1 == s.release_tag ++ "_" ++ s.asset_name
    · have hkeq : a.release_tag ++ "_" ++ a.asset_name
          = s.release_tag ++ "_" ++ s.asset_name := by
        simpa [prev_pair] using hkey
      have hsa : s = a := by
        rcases List.mem_cons.mp hs with h | h
        · exact h
        · exact absurd (hkeq ▸ List.mem_map_of_mem _ h) hnda
      subst hsa
      rw [if_pos hkey]
      have hfil : (t.map prev_pair).filter
          (fun p => p.1 == s.release_tag ++ "_" ++ s.asset_name) = [] := by
        refine List.filter_eq_nil_iff.mpr fun p hp => ?_
        obtain ⟨r, hr, hrp⟩ := List.mem_map.mp hp
        intro hcontr
        apply hnda
        rw [hkeq]
        have : r.release_tag ++ "_" ++ r.asset_name
            = s.release_tag ++ "_" ++ s.asset_name := by
          have := hrp ▸ hcontr
          simpa [prev_pair] using this
        exact this ▸ List.mem_map_of_mem _ hr
      rw [hfil]
    · have hsa : s ≠ a := fun he => hkey (by simp [he, prev_pair])
      have hst : s ∈ t := by
        rcases List.mem_cons.mp hs with h | h
        · exact absurd h hsa
        · exact h
      rw [if_neg hkey]
      exact ih hndt hst

/-- Re-reading the entry save_to_json wrote for the same run gives back
each row's own count when the concatenated keys are collision-free. -/
lemma lookup_last_day_data (stats : List StatRow) (s : StatRow)
    (hnd : (stats.map (fun r => r.release_tag ++ "_" ++ r.asset_name)).Nodup)
    (hs : s ∈ stats) :
    lookup_last (flatten_prev (day_data stats).releases)
      (s.release_tag ++ "_" ++ s.asset_name) = s.download_count := by
  have hperm : (flatten_prev (day_data stats).releases).Perm (stats.map prev_pair) := by
    have h := flatten_foldl_perm stats [] (by simp)
    simpa using h
  have hfil := hperm.filter (fun p => p.1 == s.release_tag ++ "_" ++ s.asset_name)
  rw [filter_prev_pair_singleton stats s hnd hs] at hfil
  have hone := List.perm_singleton.mp hfil
  unfold lookup_last
  rw [hone]
  rfl

/-- A row whose concatenated key collides with sample_collider's. -/
def c3_row1 : StatRow :=
  { timestamp := "t", release_tag := "a", asset_name := "b_c"
    download_count := 5, asset_size := 1, asset_url := "u" }

/-- The colliding partner: a different pair, the same concatenated key. -/
def c3_row2 : StatRow :=
  { timestamp := "t", release_tag := "a_b", asset_name := "c"
    download_count := 7, asset_size := 1, asset_url := "u" }

/-- A two-row run whose concatenated keys collide ("a_b_c" both). -/
def c3_stats : List StatRow := [c3_row1, c3_row2]

/-- A one-day history recording exactly that run. -/
def c3_hist : History := [("2026-01-01", day_data c3_stats)]

/-- Counterexample to C3: on a second run with identical counts, the row
("a", "b_c") has a recorded previous count of 5 for its own pair, so the
claim demands daily_change 5 - 5 = 0, but the code keys the lookup by
the concatenated string "a_b_c", which the colliding pair ("a_b", "c")
overwrote with 7, so the row comes back with daily_change -2. -/
theorem c3_counterexample_key_collision :
    (calculate_daily_changes (some c3_hist) c3_stats).map (fun s => s.daily_change)
      = [some (-2), some 0] ∧
    pair_lookup (day_data c3_stats).releases "a" "b_c" = some 5 ∧
    ((-2 : Int) ≠ (5 : Int) - 5) := by
  refine ⟨?_, by decide, by decide⟩
  rw [daily_changes_formula c3_hist c3_stats "2026-01-01" (by decide) (by decide)]
  decide

/-- Claim C3 as amended: with no history file, or one holding no dates,
the rows come back untouched; otherwise every row's daily_change is set
to its count minus the count recorded under its concatenated key
release_tag + underscore + asset_name at the maximal date key (0 when the
key is absent, the last colliding entry winning otherwise); when the
maximal date's entry records the same run and the concatenated keys are
collision-free, every daily_change is 0. -/
theorem c3_daily_changes_amended :
    (∀ stats, calculate_daily_changes none stats = stats) ∧
    (∀ stats, calculate_daily_changes (some []) stats = stats) ∧
    (∀ (history : History) (stats : List StatRow) (D : String),
      D ∈ history.map (·.1) →
      (∀ d ∈ history.map (·.1), d.toList ≤ D.toList) →
      calculate_daily_changes (some history) stats = stats.map (fun s =>
        { s with daily_change := some ((s.download_count : Int) -
            (lookup_last (flatten_prev (((history_lookup history D).getD ⟨0, []⟩).releases))
              (s.release_tag ++ "_" ++ s.asset_name) : Int)) })) ∧
    (∀ (history : History) (stats : List StatRow) (D : String),
      D ∈ history.map (·.1) →
      (∀ d ∈ history.map (·.1), d.toList ≤ D.toList) →
      history_lookup history D = some (day_data stats) →
      (stats.map (fun s => s.release_tag ++ "_" ++ s.asset_name)).Nodup →
      calculate_daily_changes (some history) stats
        = stats.map (fun s => { s with daily_change := some 0 })) := by
  refine ⟨fun stats => rfl, ?_, daily_changes_formula, ?_⟩
  · intro stats
    rw [show calculate_daily_changes (some []) stats
          = apply_daily_changes [] stats from rfl]
    unfold apply_daily_changes
    rw [show (([] : History).map (·.1)) = [] from rfl, List.mergeSort_nil]
    rfl
  · intro history stats D hD hmax hlook hnd
    rw [daily_changes_formula history stats D hD hmax, hlook]
    refine List.map_congr_left fun s hs => ?_
    have hl := lookup_last_day_data stats s hnd hs
    simp only [Option.getD_some]
    rw [hl, sub_self]

/-- The total download count of the assets in a list that classify to a
given platform/architecture label. -/
def classified_sum (assets : List StatRow) (k : String) : Nat :=
  ((assets.filter (fun s => platform_arch s.asset_name == k)).map (·.download_count)).sum

lemma classified_sum_nil (k : String) : classified_sum [] k = 0 := rfl

lemma classified_sum_cons (s : StatRow) (t : List StatRow) (k : String) :
    classified_sum (s :: t) k
      = (if platform_arch s.asset_name = k then s.download_count else 0)
          + classified_sum t k := by
  unfold classified_sum
  rw [List.filter_cons]
  by_cases hc : platform_arch s.asset_name = k
  · rw [if_pos (by simp [hc]), if_pos hc, List.map_cons, List.sum_cons]
  · rw [if_neg (by simp [hc]), if_neg hc, Nat.zero_add]

lemma classified_sum_append (l₁ l₂ : List StatRow) (k : String) :
    classified_sum (l₁ ++ l₂) k = classified_sum l₁ k + classified_sum l₂ k := by
  unfold classified_sum
  rw [List.filter_append, List.map_append, List.sum_append]

lemma classified_sum_flatMap (l : List (String × ReleaseData)) (k : String) :
    classified_sum (l.flatMap (fun p => p.2.assets)) k
      = (l.map (fun p => classified_sum p.2.assets k)).sum := by
  induction l with
  | nil => rfl
  | cons a t ih =>
    rw [List.flatMap_cons, classified_sum_append, List.map_cons, List.sum_cons, ih]

/-- Bumping one label in the groups dict adds to exactly that label. -/
lemma group_count_bump (gs : List (String × Nat)) (lbl : String) (n : Nat) (k : String) :
    group_count (bump_group gs lbl n) k
      = group_count gs k + (if lbl = k then n else 0) := by
  unfold bump_group
  split
  · rename_i hany
    unfold group_count
    rw [List.find?_map]
    have hfun : ((fun p : String × Nat => p.1 == k) ∘
        (fun p : String × Nat => if p.1 == lbl then (p.1, p.2 + n) else p))
        = fun p : String × Nat => p.1 == k := by
      funext p
      by_cases hp : p.1 = lbl <;> simp [hp]
    rw [hfun]
    cases hfind : gs.find? (fun p => p.1 == k) with
    | none =>
      have hkk : ¬ lbl = k := by
        intro he
        subst he
        obtain ⟨p, hp, hpk⟩ := List.any_eq_true.mp hany
        exact (List.find?_eq_none.mp hfind p hp) hpk
      simp [hkk]
    | some pr =>
      have hkey := List.find?_some hfind
      simp only [beq_iff_eq] at hkey
      by_cases hkk : lbl = k
      · subst hkk
        simp [hkey]
      · have hpr : ¬ pr.1 = lbl := by
          rw [hkey]
          exact fun h => hkk h.symm
        simp [hpr, hkk]
  · rename_i hany
    unfold group_count
    rw [List.find?_append]
    cases hfind : gs.find? (fun p => p.1 == k) with
    | none =>
      by_cases hkk : lbl = k
      · subst hkk
        simp [List.find?]
      · have hb : (lbl == k) = false := by simp [hkk]
        simp [List.find?, hb, hkk]
    | some pr =>
      have hkey := List.find?_some hfind
      simp only [beq_iff_eq] at hkey
      have hkk : ¬ lbl = k := by
        intro he
        subst he
        exact hany (List.any_eq_true.mpr ⟨pr, List.mem_of_find?_eq_some hfind, by simp [hkey]⟩)
      simp [hkk]

/-- Folding one release's assets into the groups adds each asset count to
its own label. -/
lemma group_count_add_release (assets : List StatRow) :
    ∀ (gs : List (String × Nat)) (k : String),
      group_count (add_release_assets gs assets) k
        = group_count gs k + classified_sum assets k := by
  induction assets with
  | nil =>
    intro gs k
    simp [add_release_assets, classified_sum_nil]
  | cons s t ih =>
    intro gs k
    show group_count (add_release_assets
        (bump_group gs (platform_arch s.asset_name) s.download_count) t) k = _
    rw [ih, group_count_bump, classified_sum_cons, Nat.add_assoc]

/-- Folding a list of tags through the per-release aggregation sums the
classified counts of the releases the tags look up. -/
lemma group_count_foldl_tags (rels : List (String × ReleaseData)) (tags : List String) :
    ∀ (gs : List (String × Nat)) (k : String),
      group_count (tags.foldl (fun gs t =>
          match rel_lookup rels t with
          | some rd => add_release_assets gs rd.assets
          | none => gs) gs) k
        = group_count gs k + (tags.map (fun t =>
            match rel_lookup rels t with
            | some rd => classified_sum rd.assets k
            | none => 0)).sum := by
  induction tags with
  | nil =>
    intro gs k
    simp
  | cons t ts ih =>
    intro gs k
    rw [List.foldl_cons, List.map_cons, List.sum_cons]
    cases hrl : rel_lookup rels t with
    | none =>
      simp only [hrl]
      rw [ih]
      omega
    | some rd =>
      simp only [hrl]
      rw [ih, group_count_add_release]
      omega

/-- Dict lookup of a member entry under unique keys returns its value. -/
lemma rel_lookup_eq (rels : List (String × ReleaseData))
    (hnd : (rels.map (·.1)).Nodup) {q : String × ReleaseData} (hq : q ∈ rels) :
    rel_lookup rels q.1 = some q.2 := by
  induction rels with
  | nil => cases hq
  | cons a t ih =>
    rw [List.map_cons] at hnd
    rcases List.mem_cons.mp hq with h | h
    · subst h
      unfold rel_lookup
      rw [List.find?_cons_of_pos _ (by simp)]
      rfl
    · have hne : ¬ a.1 = q.1 := fun he =>
        (List.nodup_cons.mp hnd).1 (he ▸ List.mem_map_of_mem (·.1) h)
      unfold rel_lookup
      rw [List.find?_cons_of_neg _ (by simp [hne])]
      exact ih (List.nodup_cons.mp hnd).2 h

lemma top_release_tags_nodup (entry : DayData) (hnd : (release_keys entry).Nodup) :
    (top_release_tags entry).Nodup := by
  have h1 : ((release_keys entry).mergeSort (fun a b => str_le b a)).Nodup :=
    ((List.mergeSort_perm (release_keys entry) _).nodup_iff).mpr hnd
  exact h1.sublist (List.take_sublist 5 _)

lemma top_release_tags_subset (entry : DayData) {t : String}
    (ht : t ∈ top_release_tags entry) : t ∈ release_keys entry :=
  (List.mergeSort_perm _ _).subset (List.take_subset 5 _ ht)

/-- The claim-side count of C5: the classified downloads of exactly the
assets of the releases whose tag is among the selected five. -/
def top5_spec_count (entry : DayData) (k : String) : Nat :=
  classified_sum ((entry.releases.filter
    (fun p => decide (p.1 ∈ top_release_tags entry))).flatMap (fun p => p.2.assets)) k

/-- The tag-indexed lookups of the aggregation loop visit exactly the
entries whose tag is among the selected five, in some order. -/
lemma top_entries_perm (entry : DayData) (hnd : (release_keys entry).Nodup) :
    ((top_release_tags entry).map
        (fun t => (t, (rel_lookup entry.releases t).getD ⟨0, []⟩))).Perm
      (entry.releases.filter
        (fun p => decide (p.1 ∈ top_release_tags entry))) := by
  apply List.perm_of_nodup_nodup_toFinset_eq
  · exact (top_release_tags_nodup entry hnd).map
      (fun a b hab => congrArg Prod.fst hab)
  · have hent : entry.releases.Nodup :=
      List.Nodup.of_map _ (show (entry.releases.map (·.1)).Nodup from hnd)
    exact hent.sublist (List.filter_sublist _)
  · ext p
    simp only [List.mem_toFinset, List.mem_map, List.mem_filter, decide_eq_true_eq]
    constructor
    · rintro ⟨t, htop, rfl⟩
      have hkt : t ∈ release_keys entry := top_release_tags_subset entry htop
      obtain ⟨q, hq, hq1⟩ := List.mem_map.mp hkt
      have hfind : rel_lookup entry.releases t = some q.2 := hq1 ▸ rel_lookup_eq _ hnd hq
      rw [hfind]
      simp only [Option.getD_some]
      refine ⟨?_, htop⟩
      have heq : (t, q.2) = q := by
        rw [← hq1]
      rw [heq]
      exact hq
    · rintro ⟨hp_mem, hp_top⟩
      refine ⟨p.1, hp_top, ?_⟩
      rw [rel_lookup_eq _ hnd hp_mem]
      simp only [Option.getD_some]

/-- The groups dict built by create_asset_breakdown counts, per label,
exactly the classified downloads of the selected releases' assets. -/
lemma group_count_asset_groups (entry : DayData) (k : String)
    (hnd : (release_keys entry).Nodup) :
    group_count (asset_groups entry) k = top5_spec_count entry k := by
  unfold asset_groups
  rw [group_count_foldl_tags, show group_count [] k = 0 from rfl, Nat.zero_add]
  have hmap : (top_release_tags entry).map (fun t =>
      match rel_lookup entry.releases t with
      | some rd => classified_sum rd.assets k
      | none => 0)
      = ((top_release_tags entry).map
          (fun t => (t, (rel_lookup entry.releases t).getD ⟨0, []⟩))).map
          (fun p => classified_sum p.2.assets k) := by
    rw [List.map_map]
    refine List.map_congr_left fun t _ => ?_
    cases hrl : rel_lookup entry.releases t with
    | none => simp [hrl, classified_sum_nil]
    | some rd => simp [hrl]
  rw [hmap, ((top_entries_perm entry hnd).map (fun p => classified_sum p.2.assets k)).sum_eq]
  unfold top5_spec_count
  rw [classified_sum_flatMap]

/-- sorted(..., reverse=True) is the unique descending arrangement of
distinct keys: it equals any sorted permutation of the input. -/
lemma mergeSort_desc_eq (l L : List String) (hperm : l.Perm L)
    (hsorted : L.Pairwise (fun a b => str_le b a = true)) :
    l.mergeSort (fun a b => str_le b a) = L := by
  haveI : IsAntisymm String (fun a b => str_le b a = true) :=
    ⟨fun a b hab hba => string_eq_of_toList_eq (le_antisymm
      (by simpa [str_le, decide_eq_true_eq] using hba)
      (by simpa [str_le, decide_eq_true_eq] using hab))⟩
  refine List.eq_of_perm_of_sorted ((List.mergeSort_perm l _).trans hperm) ?_ hsorted
  exact List.sorted_mergeSort
    (fun a b c hab hbc => str_le_trans c b a hbc hab)
    (fun a b => str_le_total b a)
    l

/-- One asset row per release, all Linux x86_64, used for C5. -/
def c5_asset (tag : String) (cnt : Nat) : StatRow :=
  { timestamp := "t", release_tag := tag
    asset_name := "noir-x86_64-unknown-linux-gnu.tar.gz"
    download_count := cnt, asset_size := 1, asset_url := "u" }

/-- A day entry with six releases: the stable v1.0.0 (100 downloads) and
betas 1 through 5 (1 download each). -/
def c5_entry : DayData :=
  { total_downloads := 105
    releases :=
      [("v1.0.0", { total_downloads := 100, assets := [c5_asset "v1.0.0" 100] }),
       ("v1.0.0-beta.1", { total_downloads := 1, assets := [c5_asset "v1.0.0-beta.1" 1] }),
       ("v1.0.0-beta.2", { total_downloads := 1, assets := [c5_asset "v1.0.0-beta.2" 1] }),
       ("v1.0.0-beta.3", { total_downloads := 1, assets := [c5_asset "v1.0.0-beta.3" 1] }),
       ("v1.0.0-beta.4", { total_downloads := 1, assets := [c5_asset "v1.0.0-beta.4" 1] }),
       ("v1.0.0-beta.5", { total_downloads := 1, assets := [c5_asset "v1.0.0-beta.5" 1] })] }

/-- Is this tag among the 5 most recent releases of the entry, recency
read as the semantic-version order of C1: fewer than five other tags
parse strictly greater. -/
def is_recent_tag (entry : DayData) (t : String) : Bool :=
  ((release_keys entry).filter
    (fun u => key_lt (parse_semver t) (parse_semver u))).length < 5

/-- The classified downloads of the assets of the 5 most recent releases
in the version order. -/
def recent5_count (entry : DayData) (k : String) : Nat :=
  classified_sum ((entry.releases.filter
    (fun p => is_recent_tag entry p.1)).flatMap (fun p => p.2.assets)) k

/-- Counterexample to C5: with six releases v1.0.0 and beta.1-beta.5, the
code picks the five reverse-string-sorted tags beta.5..beta.1, summing 5
Linux x86_64 downloads, while the five most recent releases (v1.0.0 and
beta.5..beta.2, in version order) hold 104; the pie chart therefore does
not aggregate the assets of the 5 most recent releases. -/
theorem c5_counterexample_string_sort :
    group_count (asset_groups c5_entry) "Linux x86_64" = 5 ∧
    recent5_count c5_entry "Linux x86_64" = 104 ∧
    (5 : Nat) ≠ 104 := by
  have htop : top_release_tags c5_entry
      = ["v1.0.0-beta.5", "v1.0.0-beta.4", "v1.0.0-beta.3", "v1.0.0-beta.2",
         "v1.0.0-beta.1"] := by
    unfold top_release_tags
    rw [mergeSort_desc_eq (release_keys c5_entry)
      ["v1.0.0-beta.5", "v1.0.0-beta.4", "v1.0.0-beta.3", "v1.0.0-beta.2",
       "v1.0.0-beta.1", "v1.0.0"] (by decide) (by decide)]
    rfl
  refine ⟨?_, by decide, by decide⟩
  unfold asset_groups
  rw [htop]
  decide

/-- Claim C5 as amended: for the latest recorded history date, the pie
chart aggregates exactly the assets of the 5 releases whose tags sort
last in the plain string order of the tag text (which is what the code's
sorted(..., reverse=True) recency proxy selects), and no assets of any
other release. -/
theorem c5_asset_breakdown_amended (h : History) (D : String) (entry : DayData)
    (k : String)
    (hD : latest_date h = some D)
    (he : history_lookup h D = some entry)
    (hnd : (release_keys entry).Nodup) :
    create_asset_breakdown h = some (asset_groups entry) ∧
    group_count (asset_groups entry) k = top5_spec_count entry k := by
  constructor
  · unfold create_asset_breakdown
    rw [hD]
    show (history_lookup h D).map asset_groups = some (asset_groups entry)
    rw [he]
    rfl
  · exact group_count_asset_groups entry k hnd

/-- Witness for C5 at a one-day history holding c5_entry. -/
theorem c5_witness :
    create_asset_breakdown [("2026-01-01", c5_entry)] = some (asset_groups c5_entry) ∧
    group_count (asset_groups c5_entry) "Linux x86_64"
      = top5_spec_count c5_entry "Linux x86_64" :=
  c5_asset_breakdown_amended [("2026-01-01", c5_entry)] "2026-01-01" c5_entry
    "Linux x86_64" (by decide) (by decide) (by decide)

/-- Witness for C3 at a one-row run recorded once under the single date
2026-01-01: the second run yields daily_change 0. -/
theorem c3_witness :
    calculate_daily_changes (some [("2026-01-01", day_data [sample_row])]) [sample_row]
      = [sample_row].map (fun s => { s with daily_change := some 0 }) :=
  c3_daily_changes_amended.2.2.2 [("2026-01-01", day_data [sample_row])] [sample_row]
    "2026-01-01" (by decide) (by decide) (by decide) (by decide)
